import Mathlib

/-!
Shallow Lean embedding of the RAG pipeline of this repository: the
transcript chunker (bot/transcript.py), the per-video vector index with its
brute-force search fallback and the grounded answer generator
(bot/qa_engine.py), per-user sessions (bot/session.py), and the in-process
cache tier (bot/cache.py).

Modelling conventions:
* machine floats that the source only ever copies (entry start times) are
  carried as Int; embedding coordinates, on which the source only performs
  products, sums and order comparisons, are carried as Int (every ranking
  statement proved below is about the induced order only, so the choice of
  ordered numeric carrier is immaterial);
* wall-clock reads (time.time()) become an explicit `now : Int` argument;
* network calls (the chat-completions provider, the embedding model) become
  explicit arguments: the provider's per-attempt outcomes and an abstract
  `embed` function;
* Python dicts keyed by id become functions into Option;
* raised ValueError becomes Except.error / an Option String out-parameter.
-/

/-- One transcript segment (transcript.py, `TranscriptEntry`).  The source's
`start_seconds` is a float that is only ever copied, never computed with, so
it is carried as an Int. -/
structure TranscriptEntry where
  timestamp : String
  start_seconds : Int
  text : String
deriving DecidableEq

/-- One retrieval chunk: the dict `{"text", "timestamp", "start_seconds"}`
built by `chunk_transcript`.  The source stores only the space-joined text;
the word list the running buffer held at emission is kept alongside
(`text = String.intercalate " " words` by construction), since the source's
word counts and overlap slices are computed on that buffer. -/
structure Chunk where
  words : List String
  text : String
  timestamp : String
  start_seconds : Int
deriving DecidableEq

instance : Inhabited Chunk := ⟨⟨[], "", "", 0⟩⟩

/-- Python `str.split()` with whitespace restricted to the space character:
split on runs of spaces, dropping empty pieces.  Accumulator holds the
current word reversed. -/
def pySplitAux : List Char → List Char → List String
  | [], acc => if acc.isEmpty then [] else [String.mk acc.reverse]
  | c :: rest, acc =>
    if c = ' ' then
      if acc.isEmpty then pySplitAux rest [] else String.mk acc.reverse :: pySplitAux rest []
    else pySplitAux rest (c :: acc)

/-- Python `entry.text.split()` (transcript.py line 168). -/
def pySplit (s : String) : List String := pySplitAux s.data []

/-- Python `current_words[-overlap:]` (transcript.py line 175): for n = 0
the slice `[-0:]` is the whole list, otherwise the last n elements. -/
def pyLastSlice (n : Nat) (l : List String) : List String :=
  if n = 0 then l else l.drop (l.length - n)

/-- The last n elements of l. -/
def lastWords (n : Nat) (l : List String) : List String := l.drop (l.length - n)

/-- The chunk dict literal of transcript.py lines 170-174 / 178. -/
def mkChunk (buf : List String) (ts : String) (sec : Int) : Chunk :=
  ⟨buf, String.intercalate " " buf, ts, sec⟩

/-- The entry loop and final flush of `chunk_transcript` (transcript.py
lines 165-179), as structural recursion over the remaining entries with the
running buffer and the saved window timestamp as accumulators.  Note the
source only refreshes `start_ts`/`start_sec` when the buffer is empty
(line 166-167). -/
def chunkLoop (size overlap : Nat) :
    List TranscriptEntry → List String → String → Int → List Chunk
  | [], buf, ts, sec => if buf = [] then [] else [mkChunk buf ts sec]
  | e :: rest, buf, ts, sec =>
    if size ≤ (buf ++ pySplit e.text).length then
      mkChunk (buf ++ pySplit e.text) (if buf = [] then e.timestamp else ts)
          (if buf = [] then e.start_seconds else sec) ::
        chunkLoop size overlap rest (pyLastSlice overlap (buf ++ pySplit e.text))
          (if buf = [] then e.timestamp else ts) (if buf = [] then e.start_seconds else sec)
    else
      chunkLoop size overlap rest (buf ++ pySplit e.text)
        (if buf = [] then e.timestamp else ts) (if buf = [] then e.start_seconds else sec)

/-- `chunk_transcript` (transcript.py lines 159-179).  `size` and `overlap`
are the CHUNK_SIZE / CHUNK_OVERLAP configuration values (defaults 400, 50);
the buffer starts empty with timestamp "0:00" and start 0. -/
def chunk_transcript (size overlap : Nat) (entries : List TranscriptEntry) : List Chunk :=
  chunkLoop size overlap entries [] "0:00" 0

/-- Row-by-column product: one entry of `self.embeddings @ q.T`
(qa_engine.py line 80). -/
def dot (u v : List Int) : Int := (List.zipWith (fun a b => a * b) u v).sum

/-- Comparison used to model `np.argsort` on the similarity column:
ascending by value, ties by ascending index (the deterministic reading of
numpy argsort, matching its observed behaviour on the concrete inputs used
below). -/
def simLe (xs : List Int) (i j : Nat) : Prop :=
  xs.getD i 0 < xs.getD j 0 ∨ (xs.getD i 0 = xs.getD j 0 ∧ i ≤ j)

instance (xs : List Int) : DecidableRel (simLe xs) := fun i j => by
  unfold simLe; infer_instance

instance (xs : List Int) : IsTotal Nat (simLe xs) :=
  ⟨fun i j => by
    unfold simLe
    rcases lt_trichotomy (xs.getD i 0) (xs.getD j 0) with h | h | h
    · exact Or.inl (Or.inl h)
    · rcases Nat.le_total i j with hij | hij
      · exact Or.inl (Or.inr ⟨h, hij⟩)
      · exact Or.inr (Or.inr ⟨h.symm, hij⟩)
    · exact Or.inr (Or.inl h)⟩

instance (xs : List Int) : IsTrans Nat (simLe xs) :=
  ⟨fun a b c hab hbc => by
    unfold simLe at hab hbc ⊢
    rcases hab with h1 | ⟨e1, le1⟩
    · rcases hbc with h2 | ⟨e2, _⟩
      · exact Or.inl (h1.trans h2)
      · exact Or.inl (e2 ▸ h1)
    · rcases hbc with h2 | ⟨e2, le2⟩
      · exact Or.inl (e1 ▸ h2)
      · exact Or.inr ⟨e1.trans e2, le1.trans le2⟩⟩

/-- `np.argsort(sims[:, 0])` (qa_engine.py line 81): the indices of the
similarity list sorted into ascending similarity order. -/
def argsortAsc (xs : List Int) : List Nat :=
  List.insertionSort (simLe xs) (List.range xs.length)

/-- The similarity column `sims[:, 0]` of `self.embeddings @ q.T`
(qa_engine.py line 80). -/
def simsOf (embeddings : List (List Int)) (q : List Int) : List Int :=
  embeddings.map (fun e => dot e q)

/-- The numpy fallback branch of `QAIndex.search` (qa_engine.py lines
79-82): similarities by dot product, ascending argsort, reverse, truncate
to `top_k`, index into the chunk list. -/
def searchFallback (chunks : List Chunk) (embeddings : List (List Int))
    (q : List Int) (top_k : Nat) : List Chunk :=
  ((argsortAsc (simsOf embeddings q)).reverse.take top_k).map
    (fun i => chunks.getD i default)

/-- Video metadata (transcript.py, `VideoData`) restricted to the fields the
indexed pipeline reads; url/duration/description/language and full_text are
never consulted by the code under claim. -/
structure VideoData where
  video_id : String
  title : String
  entries : List TranscriptEntry
  chunks : List Chunk
deriving DecidableEq

/-- The per-video index state built by `QAIndex.__init__` (qa_engine.py
lines 50-70): chunks and their embedding rows in matching order. -/
structure QAIndex where
  video_id : String
  title : String
  chunks : List Chunk
  embeddings : List (List Int)
deriving DecidableEq

/-- `QAIndex.__init__` (qa_engine.py lines 50-70).  `embed` stands for
`embed_texts` (an external model call).  An empty chunk list raises
ValueError("No transcript chunks available to index.") before any
embedding happens; otherwise the texts are embedded and stored. -/
def QAIndex.build (embed : List String → List (List Int)) (video : VideoData) :
    Except String QAIndex :=
  if video.chunks = [] then Except.error "No transcript chunks available to index."
  else Except.ok ⟨video.video_id, video.title, video.chunks,
    embed (video.chunks.map Chunk.text)⟩

/-- Outcome of one chat-completions attempt inside `answer_question`:
either the stripped-to-be message content, or the text of the raised
exception. -/
inductive ProviderResult where
  | ok (content : String)
  | err (msg : String)
deriving DecidableEq

/-- Python `pat in s` (substring test), as infix on the character lists. -/
def strContainsB (s pat : String) : Bool := decide (pat.data <:+: s.data)

/-- Python `s.lower()`, character by character. -/
def pyLower (s : String) : String := String.mk (s.data.map Char.toLower)

/-- Python `s.strip()`: drop leading and trailing whitespace. -/
def pyStrip (s : String) : String :=
  String.mk (((s.data.dropWhile Char.isWhitespace).reverse.dropWhile
    Char.isWhitespace).reverse)

deriving instance DecidableEq for Except

/-- The fixed phrase list of qa_engine.py lines 143-147. -/
def notCoveredPhrases : List String :=
  ["not covered", "not mentioned", "not discussed",
   "not in the video", "not found", "no information",
   "cannot find", "does not appear", "does not mention"]

/-- The rate-limit substrings of qa_engine.py lines 157 and 166. -/
def qaTransientSignals : List String := ["429", "rate", "limit", "quota"]

/-- Classification of a provider exception message as a transient
rate-limit/quota signal: `any(x in err_msg for x in [...])` on the
lowercased message. -/
def qaTransientB (m : String) : Bool :=
  qaTransientSignals.any (fun x => strContainsB (pyLower m) x)

/-- qa_engine.py line 167. -/
def capacityMsg : String :=
  "⏳ The AI is currently at capacity. Please wait a minute and try again."

/-- qa_engine.py line 170. -/
def tooLargeMsg : String :=
  "📏 This video\x27s content is too large for the current AI model."

/-- qa_engine.py line 173. -/
def genericMsg : String :=
  "❌ I couldn\x27t generate an answer right now. Please try a different question."

/-- qa_engine.py line 175 (unreachable: every second-attempt exception is
re-raised inside the loop body). -/
def busyMsg : String := "⏳ AI providers are currently busy. Please try again in 2 minutes."

/-- The sanitized ValueError raised by qa_engine.py lines 166-173 for a
non-retried exception with message `errMsg`. -/
def classifyQaError (errMsg : String) : String :=
  if qaTransientB errMsg then capacityMsg
  else if strContainsB (pyLower errMsg) "context_length" ||
      strContainsB (pyLower errMsg) "too many tokens" then tooLargeMsg
  else genericMsg

/-- The normalisation pass of qa_engine.py lines 140-151: strip the
content, force the sentinel when a no-information phrase occurs in its
lowercase form or the stripped length is below 2. -/
def normalizeAnswer (content : String) : String :=
  let answer := pyStrip content
  if (notCoveredPhrases.any fun p => strContainsB (pyLower answer) p) ||
      decide (answer.length < 2) then "NOT_COVERED"
  else answer

/-- `answer_question` (qa_engine.py lines 86-175) after retrieval, as a
function of the retrieved chunks and the outcomes of the at most two
provider attempts (`for attempt in range(2)`): empty retrieval returns the
sentinel; a successful attempt is normalised; a transient first failure
sleeps 60s (unobservable here) and retries once, after which any failure is
classified and raised; a non-transient first failure is classified and
raised without consulting the second attempt.  Except.error carries the
raised ValueError message. -/
def answer_question (relevant : List Chunk) (r0 r1 : ProviderResult) :
    Except String String :=
  if relevant = [] then Except.ok "NOT_COVERED"
  else
    match r0 with
    | ProviderResult.ok c => Except.ok (normalizeAnswer c)
    | ProviderResult.err m =>
      if qaTransientB m then
        match r1 with
        | ProviderResult.ok c => Except.ok (normalizeAnswer c)
        | ProviderResult.err m2 => Except.error (classifyQaError m2)
      else Except.error (classifyQaError m)

/-- One history message, the dict `{"role", "content"}` of session.py. -/
structure ChatMsg where
  role : String
  content : String
deriving DecidableEq

/-- `UserSession` (session.py lines 17-24). -/
structure UserSession where
  chat_id : Int
  language : String
  video : Option VideoData
  qa_index : Option QAIndex
  history : List ChatMsg
  last_active : Int
deriving DecidableEq

/-- session.py line 14: TTL = 3600 * 6. -/
def sessionTTL : Int := 3600 * 6

/-- `UserSession.has_video` (session.py lines 26-27). -/
def UserSession.hasVideo (s : UserSession) : Bool :=
  s.video.isSome && s.qa_index.isSome

/-- The dataclass defaults of session.py lines 17-24: language "English",
no video, no index, empty history, last_active = creation time. -/
def freshSession (chat_id : Int) (now : Int) : UserSession :=
  ⟨chat_id, "English", none, none, [], now⟩

/-- `UserSession.load_video` (session.py lines 29-33).  The source assigns
`self.video = video` first, then constructs `QAIndex(video)`, which may
raise; on that exception the method aborts with `video` already replaced
and `qa_index`, `history`, `last_active` untouched.  The second component
is the escaped exception message, if any. -/
def load_video (embed : List String → List (List Int)) (s : UserSession)
    (video : VideoData) (now : Int) : UserSession × Option String :=
  match QAIndex.build embed video with
  | Except.error e => ({ s with video := some video }, some e)
  | Except.ok idx =>
    ({ s with
        video := some video
        qa_index := some idx
        history := []
        last_active := now }, none)

/-- The `_store` dict of `SessionStore`, as a map from chat id. -/
abbrev SessionStore := Int → Option UserSession

/-- `UserSession.is_expired` (session.py lines 43-44): strictly more than
TTL seconds idle. -/
def sessionExpired (now : Int) (s : UserSession) : Bool :=
  decide (sessionTTL < now - s.last_active)

/-- `SessionStore._cleanup` (session.py lines 63-66): delete every expired
session, whatever its id. -/
def SessionStore.cleanup (now : Int) (st : SessionStore) : SessionStore :=
  fun cid =>
    match st cid with
    | some s => if sessionExpired now s then none else some s
    | none => none

/-- `SessionStore.get` (session.py lines 51-57): sweep expired sessions
first, create a default session if the id is now absent, touch it, store
and return it. -/
def SessionStore.get (now : Int) (st : SessionStore) (chat_id : Int) :
    UserSession × SessionStore :=
  let st1 := SessionStore.cleanup now st
  let sess :=
    match st1 chat_id with
    | some s => { s with last_active := now }
    | none => freshSession chat_id now
  (sess, fun cid => if cid = chat_id then some sess else st1 cid)

/-- `_Memory.set` (cache.py lines 59-60): store the value with absolute
expiry now + ttl, where ttl is the REDIS_TTL_SECONDS configuration
(default 86400). -/
def memSet {α : Type} (ttl : Int) (st : String → Option (α × Int))
    (k : String) (v : α) (now : Int) : String → Option (α × Int) :=
  fun key => if key = k then some (v, now + ttl) else st key

/-- `_Memory.get` (cache.py lines 50-57): return the value while
`now < expiry`, otherwise delete the stale entry and miss.  Returns the
read result together with the store after the read. -/
def memGet {α : Type} (st : String → Option (α × Int)) (k : String)
    (now : Int) : Option α × (String → Option (α × Int)) :=
  match st k with
  | some (v, exp) =>
    if now < exp then (some v, st)
    else (none, fun key => if key = k then none else st key)
  | none => (none, st)

-- Every chunk emitted inside the loop (hence every chunk that has a
-- successor) holds at least `size` words, because emission is guarded by
-- the `len(current_words) >= size` test.
theorem chunkLoop_sizes (size overlap : Nat) :
    ∀ (entries : List TranscriptEntry) (buf : List String) (ts : String) (sec : Int) (i : Nat),
      i + 1 < (chunkLoop size overlap entries buf ts sec).length →
      size ≤ ((chunkLoop size overlap entries buf ts sec).getD i default).words.length := by
  intro entries
  induction entries with
  | nil =>
    intro buf ts sec i h
    by_cases hb : buf = [] <;> simp [chunkLoop, hb] at h
  | cons e rest ih =>
    intro buf ts sec i h
    by_cases hs : size ≤ (buf ++ pySplit e.text).length
    · simp only [chunkLoop, if_pos hs] at h ⊢
      cases i with
      | zero => simpa [mkChunk] using hs
      | succ j =>
        simp only [List.getD_cons_succ]
        apply ih
        simpa using h
    · simp only [chunkLoop, if_neg hs] at h ⊢
      exact ih _ _ _ _ h

-- The first chunk the loop emits extends the buffer it started from: its
-- word list is the starting buffer followed by later entry words.
theorem chunkLoop_head (size overlap : Nat) :
    ∀ (entries : List TranscriptEntry) (buf : List String) (ts : String) (sec : Int)
      (c : Chunk) (cs : List Chunk),
      chunkLoop size overlap entries buf ts sec = c :: cs →
      ∃ t, c.words = buf ++ t := by
  intro entries
  induction entries with
  | nil =>
    intro buf ts sec c cs h
    by_cases hb : buf = [] <;> simp [chunkLoop, hb] at h
    obtain ⟨h1, -⟩ := h
    exact ⟨[], by simp [← h1, mkChunk]⟩
  | cons e rest ih =>
    intro buf ts sec c cs h
    by_cases hs : size ≤ (buf ++ pySplit e.text).length
    · simp only [chunkLoop, if_pos hs] at h
      obtain ⟨h1, -⟩ := List.cons.injEq .. ▸ h
      exact ⟨pySplit e.text, by simp [← h1, mkChunk]⟩
    · simp only [chunkLoop, if_neg hs] at h
      obtain ⟨t, ht⟩ := ih _ _ _ _ _ h
      exact ⟨pySplit e.text ++ t, by simp [ht]⟩

-- Each chunk after the first starts with the `[-overlap:]` slice of its
-- predecessor, because the buffer is reseeded with exactly that slice.
theorem chunkLoop_consec (size overlap : Nat) :
    ∀ (entries : List TranscriptEntry) (buf : List String) (ts : String) (sec : Int) (i : Nat),
      i + 1 < (chunkLoop size overlap entries buf ts sec).length →
      ∃ t, ((chunkLoop size overlap entries buf ts sec).getD (i + 1) default).words
        = pyLastSlice overlap (((chunkLoop size overlap entries buf ts sec).getD i default).words)
          ++ t := by
  intro entries
  induction entries with
  | nil =>
    intro buf ts sec i h
    by_cases hb : buf = [] <;> simp [chunkLoop, hb] at h
  | cons e rest ih =>
    intro buf ts sec i h
    by_cases hs : size ≤ (buf ++ pySplit e.text).length
    · simp only [chunkLoop, if_pos hs] at h ⊢
      cases i with
      | zero =>
        simp only [List.length_cons, Nat.lt_add_one_iff] at h
        rcases htail : chunkLoop size overlap rest
            (pyLastSlice overlap (buf ++ pySplit e.text))
            (if buf = [] then e.timestamp else ts)
            (if buf = [] then e.start_seconds else sec) with _ | ⟨c2, cs2⟩
        · rw [htail] at h; simp at h
        · obtain ⟨t, ht⟩ := chunkLoop_head size overlap rest _ _ _ _ _ htail
          exact ⟨t, by simpa [mkChunk] using ht⟩
      | succ j =>
        simp only [List.getD_cons_succ]
        apply ih
        simpa using h
    · simp only [chunkLoop, if_neg hs] at h ⊢
      exact ih _ _ _ _ h

/-- C1: for every list of transcript entries and configuration size S and
overlap O with O < S, every chunk produced by the chunker has word count at
least S except possibly the last chunk, and the word sequence of each chunk
after the first begins with exactly the last O words of the previous
chunk's text. -/
theorem chunker_sizes_and_overlap (size overlap : Nat) (entries : List TranscriptEntry)
    (hov : overlap < size) :
    ∀ i, i + 1 < (chunk_transcript size overlap entries).length →
      size ≤ ((chunk_transcript size overlap entries).getD i default).words.length ∧
      ((chunk_transcript size overlap entries).getD (i + 1) default).words.take overlap
        = lastWords overlap (((chunk_transcript size overlap entries).getD i default).words) := by
  unfold chunk_transcript
  intro i h
  have hsize := chunkLoop_sizes size overlap entries [] "0:00" 0 i h
  obtain ⟨t, ht⟩ := chunkLoop_consec size overlap entries [] "0:00" 0 i h
  refine ⟨hsize, ?_⟩
  rcases Nat.eq_zero_or_pos overlap with h0 | hpos
  · subst h0
    simp [lastWords, List.drop_length]
  · have hov2 : overlap ≤
        ((chunk_transcript size overlap entries).getD i default).words.length :=
      le_trans hov.le hsize
    rw [ht, pyLastSlice, if_neg (Nat.pos_iff_ne_zero.mp hpos), lastWords]
    have hlen : ((((chunk_transcript size overlap entries).getD i default).words).drop
        ((((chunk_transcript size overlap entries).getD i default).words).length - overlap)).length
        = overlap := by
      rw [List.length_drop]; omega
    exact List.take_left' hlen

/-- Witness for C1 at size 3, overlap 1 on a two-entry transcript
("a b c" then "d e"): the first chunk has 3 words and the second starts
with the last word of the first. -/
theorem chunker_sizes_and_overlap_witness :
    3 ≤ ((chunk_transcript 3 1 [⟨"0:00", 0, "a b c"⟩, ⟨"0:30", 30, "d e"⟩]).getD 0
      default).words.length ∧
    ((chunk_transcript 3 1 [⟨"0:00", 0, "a b c"⟩, ⟨"0:30", 30, "d e"⟩]).getD 1
        default).words.take 1
      = lastWords 1 (((chunk_transcript 3 1 [⟨"0:00", 0, "a b c"⟩,
        ⟨"0:30", 30, "d e"⟩]).getD 0 default).words) :=
  chunker_sizes_and_overlap 3 1 [⟨"0:00", 0, "a b c"⟩, ⟨"0:30", 30, "d e"⟩]
    (by decide) 0 (by decide)

/-- C8 (code bug): with size 4 and overlap 2 on the three entries
"a b c" at "0:00", "d e f" at "0:30", "g h i" at "1:00", the second chunk's
buffer opens with the words "e", "f" coming from the entry stamped "0:30",
yet the chunk carries timestamp "0:00" and start 0: `start_ts` is only
refreshed when the buffer is empty, and the overlap seed keeps the buffer
non-empty after the first emission, so every later chunk reuses the first
window's stamp instead of its own opening entry's. -/
theorem chunk_timestamp_reuses_first_window :
    ((chunk_transcript 4 2 [⟨"0:00", 0, "a b c"⟩, ⟨"0:30", 30, "d e f"⟩,
        ⟨"1:00", 60, "g h i"⟩]).getD 1 default).timestamp = "0:00" ∧
    ((chunk_transcript 4 2 [⟨"0:00", 0, "a b c"⟩, ⟨"0:30", 30, "d e f"⟩,
        ⟨"1:00", 60, "g h i"⟩]).getD 1 default).start_seconds = 0 ∧
    ((chunk_transcript 4 2 [⟨"0:00", 0, "a b c"⟩, ⟨"0:30", 30, "d e f"⟩,
        ⟨"1:00", 60, "g h i"⟩]).getD 1 default).words.take 2 = ["e", "f"] ∧
    pySplit "d e f" = ["d", "e", "f"] ∧
    ("0:00" : String) ≠ "0:30" := by
  decide

-- Reading a chunk list at each index of `range` reproduces the list.
theorem map_getD_range_chunks (l : List Chunk) :
    (List.range l.length).map (fun i => l.getD i default) = l := by
  apply List.ext_get
  · simp
  · intro n h1 h2
    simp [List.getD_eq_getElem, List.getElem?_eq_getElem h2]

/-- C2 counterexample: two chunks with identical embeddings (hence equal
similarity to the query) come back in reversed original order, because
`np.argsort(sims)[::-1]` reverses an ascending sort and therefore flips
ties; the claim's stable tie-break by original chunk order would require
the "a" chunk first. -/
theorem search_tie_order_counterexample :
    searchFallback [⟨["a"], "a", "0:00", 0⟩, ⟨["b"], "b", "0:30", 30⟩]
        [[(1 : Int)], [(1 : Int)]] [(1 : Int)] 4
      = [⟨["b"], "b", "0:30", 30⟩, ⟨["a"], "a", "0:00", 0⟩] ∧
    simsOf [[(1 : Int)], [(1 : Int)]] [(1 : Int)] = [1, 1] ∧
    (⟨["b"], "b", "0:30", 30⟩ : Chunk) ≠ ⟨["a"], "a", "0:00", 0⟩ := by
  decide

/-- C2 (amended): the numpy fallback path of search returns the chunks at
the argsort-descending index list; along that list similarity is
non-increasing with ties broken by *descending* original chunk index
(reverse of the claim's stable order); and when top_k is at least the
number of chunks the result is a permutation of all chunks — no omissions,
no duplicates. -/
theorem search_fallback_ranking (chunks : List Chunk) (embs : List (List Int))
    (q : List Int) (k : Nat) (hlen : embs.length = chunks.length) :
    searchFallback chunks embs q k
      = ((argsortAsc (simsOf embs q)).reverse.take k).map (fun i => chunks.getD i default) ∧
    ((argsortAsc (simsOf embs q)).reverse.take k).Pairwise
      (fun i j => (simsOf embs q).getD j 0 < (simsOf embs q).getD i 0
        ∨ ((simsOf embs q).getD i 0 = (simsOf embs q).getD j 0 ∧ j < i)) ∧
    (chunks.length ≤ k → (searchFallback chunks embs q k).Perm chunks) := by
  refine ⟨rfl, ?_, ?_⟩
  · have hsorted : (argsortAsc (simsOf embs q)).Pairwise (simLe (simsOf embs q)) :=
      List.sorted_insertionSort _ _
    have hnodup : (argsortAsc (simsOf embs q)).Nodup :=
      (List.perm_insertionSort _ _).nodup_iff.mpr (List.nodup_range _)
    have hrev : (argsortAsc (simsOf embs q)).reverse.Pairwise
        (fun i j => simLe (simsOf embs q) j i) := List.pairwise_reverse.mpr hsorted
    have hrevne : (argsortAsc (simsOf embs q)).reverse.Pairwise (fun i j => i ≠ j) :=
      List.nodup_reverse.mpr hnodup
    have hboth := (hrev.and hrevne).sublist (List.take_sublist k _)
    refine hboth.imp ?_
    rintro i j ⟨hle | ⟨heq, hij⟩, hne⟩
    · exact Or.inl hle
    · exact Or.inr ⟨heq.symm, lt_of_le_of_ne hij (fun hc => hne hc.symm)⟩
  · intro hk
    have hlen2 : (simsOf embs q).length = chunks.length := by simp [simsOf, hlen]
    have hperm : (argsortAsc (simsOf embs q)).Perm (List.range (simsOf embs q).length) :=
      List.perm_insertionSort _ _
    have hlen3 : (argsortAsc (simsOf embs q)).reverse.length = chunks.length := by
      simp [hperm.length_eq, hlen2]
    have htake : (argsortAsc (simsOf embs q)).reverse.take k
        = (argsortAsc (simsOf embs q)).reverse :=
      List.take_of_length_le (le_trans (le_of_eq hlen3) hk)
    have hpermrev : ((argsortAsc (simsOf embs q)).reverse).Perm
        (List.range chunks.length) := by
      rw [← hlen2]
      exact (List.reverse_perm _).trans hperm
    simp only [searchFallback]
    rw [htake]
    have hfin := hpermrev.map (fun i => chunks.getD i default)
    rwa [map_getD_range_chunks] at hfin

/-- Witness for C2's amended theorem on a two-chunk index with distinct
similarities and top_k equal to the chunk count: the result is a
permutation of all chunks. -/
theorem search_fallback_ranking_witness :
    (searchFallback [⟨["a"], "a", "0:00", 0⟩, ⟨["b"], "b", "0:30", 30⟩]
        [[(1 : Int)], [(2 : Int)]] [(1 : Int)] 2).Perm
      [⟨["a"], "a", "0:00", 0⟩, ⟨["b"], "b", "0:30", 30⟩] :=
  (search_fallback_ranking [⟨["a"], "a", "0:00", 0⟩, ⟨["b"], "b", "0:30", 30⟩]
      [[(1 : Int)], [(2 : Int)]] [(1 : Int)] 2 rfl).2.2 (by decide)

-- classifyQaError only ever returns one of the three fixed sanitized
-- messages, whatever the raw exception text was.
theorem classifyQaError_mem (m : String) :
    classifyQaError m = capacityMsg ∨ classifyQaError m = tooLargeMsg ∨
      classifyQaError m = genericMsg := by
  unfold classifyQaError
  split
  · exact Or.inl rfl
  · split
    · exact Or.inr (Or.inl rfl)
    · exact Or.inr (Or.inr rfl)

/-- C3: with empty retrieval `answer_question` returns the NOT_COVERED
sentinel immediately (whatever the provider would have said), and any
provider response — on the first attempt or on the retry after a transient
failure — whose stripped lowercase form contains one of the fixed
no-information phrases, or whose stripped length is below 2, is normalised
to the sentinel regardless of its literal content. -/
theorem answer_question_sentinel (relevant : List Chunk) (r0 r1 : ProviderResult) :
    (relevant = [] → answer_question relevant r0 r1 = Except.ok "NOT_COVERED") ∧
    (∀ c, relevant ≠ [] → r0 = ProviderResult.ok c →
      ((notCoveredPhrases.any fun p => strContainsB (pyLower (pyStrip c)) p) = true ∨
        (pyStrip c).length < 2) →
      answer_question relevant r0 r1 = Except.ok "NOT_COVERED") ∧
    (∀ m c, relevant ≠ [] → r0 = ProviderResult.err m → qaTransientB m = true →
      r1 = ProviderResult.ok c →
      ((notCoveredPhrases.any fun p => strContainsB (pyLower (pyStrip c)) p) = true ∨
        (pyStrip c).length < 2) →
      answer_question relevant r0 r1 = Except.ok "NOT_COVERED") := by
  refine ⟨?_, ?_, ?_⟩
  · intro h
    simp [answer_question, h]
  · intro c hne hr0 hc
    have hcond : ((notCoveredPhrases.any fun p => strContainsB (pyLower (pyStrip c)) p) ||
        decide ((pyStrip c).length < 2)) = true := by
      rcases hc with h | h <;> simp [h]
    subst hr0
    simp [answer_question, hne, normalizeAnswer, hcond]
  · intro m c hne hr0 ht hr1 hc
    have hcond : ((notCoveredPhrases.any fun p => strContainsB (pyLower (pyStrip c)) p) ||
        decide ((pyStrip c).length < 2)) = true := by
      rcases hc with h | h <;> simp [h]
    subst hr0; subst hr1
    simp [answer_question, hne, ht, normalizeAnswer, hcond]

/-- Witness for C3: a provider response containing "not covered" is
normalised to the sentinel. -/
theorem answer_question_sentinel_witness :
    answer_question [⟨["w"], "w", "0:00", 0⟩]
        (ProviderResult.ok "It is not covered here.") (ProviderResult.ok "x")
      = Except.ok "NOT_COVERED" :=
  (answer_question_sentinel [⟨["w"], "w", "0:00", 0⟩]
      (ProviderResult.ok "It is not covered here.") (ProviderResult.ok "x")).2.1
    "It is not covered here." (by decide) rfl (by decide)

/-- C5: a transient (rate-limit classified) first failure is retried
exactly once — after it the outcome is entirely the second attempt's
handler; two consecutive transient failures surface the fixed capacity
message; a non-transient first failure is classified and surfaced without
consulting the second attempt; and every surfaced error message is one of
the three fixed sanitized constants, so raw provider exception text never
reaches the caller.  (The 60-second cooldown before the retry is a
real-time side effect with no observable state here.) -/
theorem answer_question_retry_sanitized (relevant : List Chunk) (r0 r1 : ProviderResult)
    (hne : relevant ≠ []) :
    (∀ m, r0 = ProviderResult.err m → qaTransientB m = true →
      answer_question relevant r0 r1 =
        (match r1 with
         | ProviderResult.ok c => Except.ok (normalizeAnswer c)
         | ProviderResult.err m2 => Except.error (classifyQaError m2))) ∧
    (∀ m m2, r0 = ProviderResult.err m → qaTransientB m = true →
      r1 = ProviderResult.err m2 → qaTransientB m2 = true →
      answer_question relevant r0 r1 = Except.error capacityMsg) ∧
    (∀ m, r0 = ProviderResult.err m → qaTransientB m = false →
      answer_question relevant r0 r1 = Except.error (classifyQaError m)) ∧
    (∀ e, answer_question relevant r0 r1 = Except.error e →
      e = capacityMsg ∨ e = tooLargeMsg ∨ e = genericMsg) := by
  refine ⟨?_, ?_, ?_, ?_⟩
  · intro m hr0 ht
    subst hr0
    simp [answer_question, hne, ht]
  · intro m m2 hr0 ht hr1 ht2
    subst hr0; subst hr1
    simp [answer_question, hne, ht, classifyQaError, ht2]
  · intro m hr0 ht
    subst hr0
    simp [answer_question, hne, ht]
  · intro e he
    cases r0 with
    | ok c => simp [answer_question, hne] at he
    | err m =>
      by_cases ht : qaTransientB m
      · cases r1 with
        | ok c => simp [answer_question, hne, ht] at he
        | err m2 =>
          simp [answer_question, hne, ht] at he
          subst he
          exact classifyQaError_mem m2
      · simp [answer_question, hne, ht] at he
        subst he
        exact classifyQaError_mem m

/-- Witness for C5: two consecutive 429 failures surface exactly the fixed
capacity message. -/
theorem answer_question_retry_sanitized_witness :
    answer_question [⟨["w"], "w", "0:00", 0⟩] (ProviderResult.err "Error code: 429")
        (ProviderResult.err "Error code: 429 again") = Except.error capacityMsg :=
  (answer_question_retry_sanitized [⟨["w"], "w", "0:00", 0⟩]
      (ProviderResult.err "Error code: 429") (ProviderResult.err "Error code: 429 again")
      (by decide)).2.1 "Error code: 429" "Error code: 429 again" rfl (by decide) rfl (by decide)

/-- C4: `SessionStore.get` creates a default session (language "English",
no video, empty history) for an unseen id, always refreshes the returned
session's last_active to the access time, sweeps every stored session —
any id, not just the requested one — whose idle time strictly exceeds the
6-hour TTL before the lookup, hands back a freshly created session even
for the requested id when its old session had expired, and stores the
returned session under the requested id. -/
theorem session_get_spec (st : SessionStore) (now chat_id : Int) :
    (st chat_id = none →
      (SessionStore.get now st chat_id).1.language = "English" ∧
      (SessionStore.get now st chat_id).1.video = none ∧
      (SessionStore.get now st chat_id).1.history = [] ∧
      (SessionStore.get now st chat_id).1 = freshSession chat_id now) ∧
    (SessionStore.get now st chat_id).1.last_active = now ∧
    (∀ cid s, st cid = some s → sessionTTL < now - s.last_active → cid ≠ chat_id →
      (SessionStore.get now st chat_id).2 cid = none) ∧
    (∀ s, st chat_id = some s → sessionTTL < now - s.last_active →
      (SessionStore.get now st chat_id).1 = freshSession chat_id now) ∧
    (SessionStore.get now st chat_id).2 chat_id = some (SessionStore.get now st chat_id).1 := by
  refine ⟨?_, ?_, ?_, ?_, ?_⟩
  · intro h
    simp [SessionStore.get, SessionStore.cleanup, h, freshSession]
  · rcases hst : st chat_id with _ | s
    · simp [SessionStore.get, SessionStore.cleanup, hst, freshSession]
    · by_cases he : sessionExpired now s
      · simp [SessionStore.get, SessionStore.cleanup, hst, he, freshSession]
      · simp [SessionStore.get, SessionStore.cleanup, hst, he]
  · intro cid s hcid hexp hne
    have he : sessionExpired now s = true := by
      simp [sessionExpired]
      exact hexp
    simp [SessionStore.get, SessionStore.cleanup, hcid, he, hne]
  · intro s hst hexp
    have he : sessionExpired now s = true := by
      simp [sessionExpired]
      exact hexp
    simp [SessionStore.get, SessionStore.cleanup, hst, he, freshSession]
  · simp [SessionStore.get]

/-- Witness for C4: a session idle for 30000 s (more than the 21600 s TTL)
under id 5 is gone from the store after a `get` for the unrelated id 7. -/
theorem session_get_spec_witness :
    (SessionStore.get 30000 (fun cid => if cid = 5 then some (freshSession 5 0) else none) 7).2 5
      = none :=
  (session_get_spec (fun cid => if cid = 5 then some (freshSession 5 0) else none)
      30000 7).2.2.1 5 (freshSession 5 0) rfl (by decide) (by decide)

/-- C6: building a QAIndex from a video with an empty chunk list fails with
the fixed ValueError message, and does so independently of the embedding
function — no embedding is consulted; a successful build always returns an
index whose chunk list is the video's non-empty chunk list. -/
theorem qaindex_build_empty_rejected (embed embed2 : List String → List (List Int))
    (video : VideoData) :
    (video.chunks = [] →
      QAIndex.build embed video = Except.error "No transcript chunks available to index." ∧
      QAIndex.build embed video = QAIndex.build embed2 video) ∧
    (∀ idx, QAIndex.build embed video = Except.ok idx →
      idx.chunks ≠ [] ∧ 0 < idx.chunks.length ∧ idx.chunks = video.chunks) := by
  constructor
  · intro h
    simp [QAIndex.build, h]
  · intro idx hok
    by_cases h : video.chunks = []
    · simp [QAIndex.build, h] at hok
    · simp [QAIndex.build, h] at hok
      cases hok
      exact ⟨h, List.length_pos.mpr h, rfl⟩

/-- Witness for C6: a chunkless video is rejected at construction. -/
theorem qaindex_build_empty_rejected_witness :
    QAIndex.build (fun _ => []) ⟨"v", "t", [], []⟩
      = Except.error "No transcript chunks available to index." :=
  ((qaindex_build_empty_rejected (fun _ => []) (fun _ => [[1]]) ⟨"v", "t", [], []⟩).1 rfl).1

/-- C7 (code bug): `load_video` assigns `self.video` before constructing
`QAIndex(video)`; on a fresh session loading a video whose chunk list is
empty the constructor raises, and the session is left with `video` set to
the new video while `qa_index` is still None — the fields are set
independently, contradicting the claimed atomicity ("neither field is set
without the other").  With a previously loaded video the same path leaves
`video` pointing at the new video and `qa_index` at the old index. -/
theorem load_video_partial_failure :
    (load_video (fun _ => []) (freshSession 1 0) ⟨"vid", "t", [], []⟩ 0).2
      = some "No transcript chunks available to index." ∧
    (load_video (fun _ => []) (freshSession 1 0) ⟨"vid", "t", [], []⟩ 0).1.video
      = some ⟨"vid", "t", [], []⟩ ∧
    (load_video (fun _ => []) (freshSession 1 0) ⟨"vid", "t", [], []⟩ 0).1.qa_index = none ∧
    UserSession.hasVideo (load_video (fun _ => []) (freshSession 1 0) ⟨"vid", "t", [], []⟩ 0).1
      = false := by
  decide

/-- C10: for the in-process cache tier, a `set` followed immediately by a
`get` of the same key returns the stored value (the TTL being positive),
and once the TTL has elapsed the `get` misses — never returning the
expired value — and deletes the stale entry from the store on that read. -/
theorem memory_cache_roundtrip (α : Type) (ttl : Int) (st : String → Option (α × Int))
    (k : String) (v : α) (now now2 : Int) (hpos : 0 < ttl) :
    (memGet (memSet ttl st k v now) k now).1 = some v ∧
    (now + ttl ≤ now2 →
      (memGet (memSet ttl st k v now) k now2).1 = none ∧
      ((memGet (memSet ttl st k v now) k now2).2) k = none) := by
  have hkey : (memSet ttl st k v now) k = some (v, now + ttl) := by simp [memSet]
  constructor
  · simp only [memGet, hkey]
    rw [if_pos (by omega)]
  · intro h2
    constructor
    · simp only [memGet, hkey]
      rw [if_neg (by omega)]
    · simp only [memGet, hkey]
      rw [if_neg (by omega)]
      simp

/-- Witness for C10 with the default 86400 s TTL: an immediate read hits
and a read exactly at expiry misses. -/
theorem memory_cache_roundtrip_witness :
    (memGet (memSet 86400 (fun _ => none) "v:abc" ("x" : String) 0) "v:abc" 0).1 = some "x" ∧
    (memGet (memSet 86400 (fun _ => none) "v:abc" ("x" : String) 0) "v:abc" 86400).1 = none :=
  ⟨(memory_cache_roundtrip String 86400 (fun _ => none) "v:abc" "x" 0 86400 (by decide)).1,
   ((memory_cache_roundtrip String 86400 (fun _ => none) "v:abc" "x" 0 86400
      (by decide)).2 (by decide)).1⟩

-- Coherence of the ghost field: every chunk the chunker produces stores
-- exactly the space-join of its recorded word list, so statements over
-- `words` are statements about the source's chunk text.
theorem chunk_text_eq_join (size overlap : Nat) :
    ∀ (entries : List TranscriptEntry) (buf : List String) (ts : String) (sec : Int),
      ∀ c ∈ chunkLoop size overlap entries buf ts sec,
        c.text = String.intercalate " " c.words := by
  intro entries
  induction entries with
  | nil =>
    intro buf ts sec c hc
    by_cases hb : buf = [] <;> simp [chunkLoop, hb] at hc
    simp [hc, mkChunk]
  | cons e rest ih =>
    intro buf ts sec c hc
    by_cases hs : size ≤ (buf ++ pySplit e.text).length
    · simp only [chunkLoop, if_pos hs, List.mem_cons] at hc
      rcases hc with rfl | hc
      · simp [mkChunk]
      · exact ih _ _ _ _ hc
    · simp only [chunkLoop, if_neg hs] at hc
      exact ih _ _ _ _ hc
